import Mathlib

/-!
Verification development for the language-profile name generator.

The definitions below are a shallow embedding of the generation engine:
`src/generators/profile_generator.rs` (LanguageProfileGenerator), the
profile data model `src/language_profile/profile.rs`, and the phoneme
record `src/phonetics/phoneme.rs`.

Modelling conventions:
- `f32` weights/strengths are embedded as exact rationals `ℚ`.
- Random number generators are embedded as explicit streams of rationals
  (`RngStream`); each primitive draw consumes one stream element.
  `rng.gen::<f32>()` yields the next element, and `rng.gen_range(lo..=hi)`
  maps the next element into the integer range.  The generator threads two
  independent streams: the RNG supplied to `generate`, and the ambient
  `rand::thread_rng()` stream which the probabilistic harmony rules draw
  from inside the pipeline.
- `HashMap` iteration (phoneme groups) is embedded as an association list
  scanned in order.
- A Rust `panic!`/`expect` is embedded as `Option.none` propagated to the
  result of `generate`.
-/

/-- PhonemeType from `src/phonetics/phoneme.rs`. -/
inductive PhonemeType where
  | Consonant : PhonemeType
  | Vowel : PhonemeType
deriving DecidableEq, Repr

/-- Phoneme from `src/phonetics/phoneme.rs`: IPA key, type, grapheme, weight. -/
structure Phoneme where
  ipa : String
  phonemeType : PhonemeType
  grapheme : String
  frequency : ℚ
deriving DecidableEq, Repr

/-- Phoneme::is_vowel. -/
def Phoneme.isVowel (p : Phoneme) : Bool :=
  p.phonemeType = PhonemeType.Vowel

/-- PhoneticInventory from `src/language_profile/profile.rs`; the
`phoneme_groups` HashMap is embedded as an association list. -/
structure PhoneticInventory where
  phonemes : List Phoneme
  phonemeGroups : List (String × List String)
deriving DecidableEq, Repr

/-- PhoneticInventory::get_phoneme: first phoneme whose `ipa` matches. -/
def PhoneticInventory.get_phoneme (inv : PhoneticInventory) (ipa : String) : Option Phoneme :=
  inv.phonemes.find? (fun p => p.ipa == ipa)

/-- PhoneticInventory::get_group: lookup of a phoneme group by name. -/
def PhoneticInventory.get_group (inv : PhoneticInventory) (groupName : String) : Option (List String) :=
  (inv.phonemeGroups.find? (fun g => g.1 == groupName)).map Prod.snd

/-- SyllablePattern from `src/language_profile/profile.rs`. -/
structure SyllablePattern where
  pattern : String
  frequency : ℚ
deriving DecidableEq, Repr

/-- PhonemeCluster from `src/language_profile/profile.rs`. -/
structure PhonemeCluster where
  phonemes : List String
  frequency : ℚ
deriving DecidableEq, Repr

/-- SyllableStructure from `src/language_profile/profile.rs`. -/
structure SyllableStructure where
  patterns : List SyllablePattern
  onsets : List PhonemeCluster
  nuclei : List PhonemeCluster
  codas : List PhonemeCluster
deriving DecidableEq, Repr

/-- Affix from `src/language_profile/profile.rs` (unused by the engine). -/
structure Affix where
  grapheme : String
  phonemes : List String
  frequency : ℚ
deriving DecidableEq, Repr

/-- TransitionRule from `src/language_profile/profile.rs` (unused by the engine). -/
structure TransitionRule where
  coda : List String
  onset : List String
  forbidden : Bool
deriving DecidableEq, Repr

/-- WordComposition from `src/language_profile/profile.rs`. -/
structure WordComposition where
  minSyllables : Nat
  maxSyllables : Nat
  prefixes : List Affix
  suffixes : List Affix
  forbiddenTransitions : List TransitionRule
deriving DecidableEq, Repr

/-- HarmonyRule from `src/language_profile/profile.rs`. -/
structure HarmonyRule where
  name : String
  condition : String
  requirement : Option String
  script : Option String
  strength : ℚ
deriving DecidableEq, Repr

/-- StyleRules from `src/language_profile/profile.rs`; the
`frequency_adjustments` HashMap is embedded as an association list. -/
structure StyleRules where
  harmonyRules : List HarmonyRule
  frequencyAdjustments : List (String × ℚ)
deriving DecidableEq, Repr

/-- LanguageProfile from `src/language_profile/profile.rs`. -/
structure LanguageProfile where
  name : String
  phoneticInventory : PhoneticInventory
  syllableStructure : SyllableStructure
  wordComposition : WordComposition
  styleRules : StyleRules
deriving DecidableEq, Repr

/-- Syllable from `src/generators/profile_generator.rs`. -/
structure Syllable where
  onset : List String
  nucleus : List String
  coda : List String
  stressed : Bool
deriving DecidableEq, Repr

/-- An RNG is embedded as the explicit stream of its future draws, each a
rational standing for a value in `[0,1)`. -/
abbrev RngStream := List ℚ

/-- One `rng.gen::<f32>()` draw: take the next stream element (0 when the
stream is exhausted). -/
def genFloat : RngStream → ℚ × RngStream
  | [] => (0, [])
  | q :: s => (q, s)

/-- One `rng.gen_range(lo..=hi)` draw: map the next stream element into the
inclusive integer range (clamped so the result is total). -/
def genRangeNat (lo hi : Nat) (s : RngStream) : Nat × RngStream :=
  let p := genFloat s
  (min (lo + (p.1 * ((hi : ℚ) + 1 - (lo : ℚ))).floor.toNat) hi, p.2)

/-- The index selection of rand's `WeightedIndex::sample`: given the drawn
point `x` in `[0, total)`, the first index whose cumulative weight exceeds
`x`; the binary search never returns past the last index. -/
def cdfIndex : List ℚ → ℚ → Nat
  | [], _ => 0
  | [_], _ => 0
  | w :: b :: t, x => if x < w then 0 else 1 + cdfIndex (b :: t) (x - w)

/-- LanguageProfileGenerator::weighted_choice from
`src/generators/profile_generator.rs`: `None` on the empty list; uniform
index when the total weight is ≤ 0; uniform index when `WeightedIndex::new`
rejects the weights (some individual weight negative — the embedded analogue
of rand's invalid-weight error); otherwise a weighted draw. -/
def weighted_choice (clusters : List PhonemeCluster) (s : RngStream) :
    Option PhonemeCluster × RngStream :=
  if clusters.isEmpty then (none, s)
  else
    let weights := clusters.map PhonemeCluster.frequency
    let total := weights.sum
    if total ≤ 0 then
      let p := genRangeNat 0 (clusters.length - 1) s
      (clusters.get? p.1, p.2)
    else
      if weights.any (fun w => w < 0) then
        let p := genRangeNat 0 (clusters.length - 1) s
        (clusters.get? p.1, p.2)
      else
        let p := genFloat s
        (clusters.get? (cdfIndex weights (p.1 * total)), p.2)

/-- The subtractive scan loop inside SyllableStructure::get_random_pattern:
subtract each frequency from the drawn value in declaration order and return
the first pattern at which the running value drops to ≤ 0. -/
def patternScan : List SyllablePattern → ℚ → Option SyllablePattern
  | [], _ => none
  | pat :: rest, r =>
    if r - pat.frequency ≤ 0 then some pat else patternScan rest (r - pat.frequency)

/-- SyllableStructure::get_random_pattern from
`src/language_profile/profile.rs`: `None` on an empty pattern list; the
first pattern (no draw) when the total weight is ≤ 0; otherwise the
subtractive scan on `gen::<f32>() * total`, falling back to the last
pattern when the scan exhausts the list. -/
def SyllableStructure.get_random_pattern (ss : SyllableStructure) (s : RngStream) :
    Option SyllablePattern × RngStream :=
  if ss.patterns.isEmpty then (none, s)
  else
    let total := (ss.patterns.map SyllablePattern.frequency).sum
    if total ≤ 0 then (ss.patterns.head?, s)
    else
      let p := genFloat s
      match patternScan ss.patterns (p.1 * total) with
      | some pat => (some pat, p.2)
      | none => (ss.patterns.getLast?, p.2)

/-- One character of the shape scan inside
LanguageProfileGenerator::generate_syllable: `'C'` fills the onset while
the nucleus is still empty and the coda afterwards, `'V'` fills the
nucleus, anything else is ignored; each fill replaces the slot with the
drawn cluster's phonemes, and a failed draw (empty list) leaves the slot
unchanged. -/
def syllableStep (p : LanguageProfile) (c : Char) :
    Syllable × RngStream → Syllable × RngStream :=
  fun st =>
    if c = 'C' then
      if st.1.nucleus.isEmpty then
        match weighted_choice p.syllableStructure.onsets st.2 with
        | (some cl, s') => ({ st.1 with onset := cl.phonemes }, s')
        | (none, s') => (st.1, s')
      else
        match weighted_choice p.syllableStructure.codas st.2 with
        | (some cl, s') => ({ st.1 with coda := cl.phonemes }, s')
        | (none, s') => (st.1, s')
    else if c = 'V' then
      match weighted_choice p.syllableStructure.nuclei st.2 with
      | (some cl, s') => ({ st.1 with nucleus := cl.phonemes }, s')
      | (none, s') => (st.1, s')
    else st

/-- LanguageProfileGenerator::generate_syllable: draw a pattern (the
source `expect`s here, embedded as `none`), then scan its shape left to
right.  The source also receives the syllables generated so far but never
reads them, so that parameter is omitted. -/
def generate_syllable (p : LanguageProfile) (s : RngStream) :
    Option Syllable × RngStream :=
  match p.syllableStructure.get_random_pattern s with
  | (none, s') => (none, s')
  | (some pat, s') =>
    let st := pat.pattern.toList.foldl (fun st c => syllableStep p c st)
      (⟨[], [], [], false⟩, s')
    (some st.1, st.2)

/-- The syllable-generation loop of LanguageProfileGenerator::generate:
build `n` syllables in order, propagating the pattern-`expect` panic. -/
def genSyllables (p : LanguageProfile) : Nat → RngStream → Option (List Syllable) × RngStream
  | 0, s => (some [], s)
  | n + 1, s =>
    match generate_syllable p s with
    | (none, s') => (none, s')
    | (some syl, s') =>
      match genSyllables p n s' with
      | (none, s'') => (none, s'')
      | (some rest, s'') => (some (syl :: rest), s'')

/-- The indexed loop inside
LanguageProfileGenerator::assign_stress_patterns, carrying the absolute
index: index 0 is set stressed, and every even index ≥ 2 is set stressed;
all other syllables are passed through untouched. -/
def stressLoop : Nat → List Syllable → List Syllable
  | _, [] => []
  | i, syl :: rest =>
    (if i = 0 ∨ (2 ≤ i ∧ i % 2 = 0) then { syl with stressed := true } else syl)
      :: stressLoop (i + 1) rest

/-- LanguageProfileGenerator::assign_stress_patterns: no-op on the empty
sequence, otherwise the indexed stress loop from index 0. -/
def assign_stress_patterns (syllables : List Syllable) : List Syllable :=
  if syllables.isEmpty then syllables else stressLoop 0 syllables

/-- LanguageProfileGenerator::determine_vowel_group: the first group (in
iteration order) whose member list contains the given IPA symbol. -/
def determine_vowel_group (p : LanguageProfile) (vowelIpa : String) : Option String :=
  (p.phoneticInventory.phonemeGroups.find? (fun g => g.2.contains vowelIpa)).map Prod.fst

/-- LanguageProfileGenerator::find_harmonizing_vowel: the first member of
the target group that resolves in the inventory to a vowel; the current
nucleus parameter is unused in the source and kept here unused. -/
def find_harmonizing_vowel (p : LanguageProfile) (currentNucleus : List String)
    (targetGroup : Option String) : Option String :=
  match targetGroup with
  | none => none
  | some groupName =>
    match p.phoneticInventory.get_group groupName with
    | none => none
    | some groupPhonemes =>
      groupPhonemes.find? (fun ph =>
        match p.phoneticInventory.get_phoneme ph with
        | some u => u.isVowel
        | none => false)

/-- LanguageProfileGenerator::apply_vowel_harmony: from the first symbol of
syllable 0's nucleus determine a group, then replace the nucleus of every
subsequent syllable for which a harmonizing vowel is found; the rule's
strength is never read. -/
def apply_vowel_harmony (p : LanguageProfile) (rule : HarmonyRule)
    (syllables : List Syllable) : List Syllable :=
  match syllables with
  | [] => []
  | s0 :: rest =>
    match s0.nucleus.head? with
    | none => s0 :: rest
    | some firstVowelIpa =>
      let vowelGroup := determine_vowel_group p firstVowelIpa
      s0 :: rest.map (fun syl =>
        match find_harmonizing_vowel p syl.nucleus vowelGroup with
        | some replacement => { syl with nucleus := [replacement] }
        | none => syl)

/-- LanguageProfileGenerator::apply_vowel_reduction: for each unstressed
syllable draw from the ambient thread RNG; when the draw is below the rule
strength and schwa is in the inventory, replace the nucleus with schwa.
Stressed syllables neither draw nor change. -/
def apply_vowel_reduction (p : LanguageProfile) (rule : HarmonyRule) :
    List Syllable → RngStream → List Syllable × RngStream
  | [], ts => ([], ts)
  | syl :: rest, ts =>
    if syl.stressed then
      let r := apply_vowel_reduction p rule rest ts
      (syl :: r.1, r.2)
    else
      let d := genFloat ts
      let syl' :=
        if d.1 < rule.strength then
          if (p.phoneticInventory.get_phoneme ("[ə]")).isSome then
            { syl with nucleus := [("[ə]" : String)] }
          else syl
        else syl
      let r := apply_vowel_reduction p rule rest d.2
      (syl' :: r.1, r.2)

/-- LanguageProfileGenerator::apply_consonant_cluster_simplification: for
each syllable draw from the ambient thread RNG; when the draw is below the
rule strength, truncate onset and coda to at most two symbols. -/
def apply_consonant_cluster_simplification (p : LanguageProfile) (rule : HarmonyRule) :
    List Syllable → RngStream → List Syllable × RngStream
  | [], ts => ([], ts)
  | syl :: rest, ts =>
    let d := genFloat ts
    let syl' :=
      if d.1 < rule.strength then
        { syl with
          onset := if 2 < syl.onset.length then syl.onset.take 2 else syl.onset,
          coda := if 2 < syl.coda.length then syl.coda.take 2 else syl.coda }
      else syl
    let r := apply_consonant_cluster_simplification p rule rest d.2
    (syl' :: r.1, r.2)

/-- LanguageProfileGenerator::is_reduced_vowel (string version). -/
def is_reduced_vowel (ipa : String) : Bool :=
  ipa = "[ə]" || ipa = "[ɪ]" || ipa = "[ʊ]" || ipa = "[ɨ]"

/-- LanguageProfileGenerator::is_full_vowel: resolves in the inventory to a
vowel and is not a reduced vowel. -/
def is_full_vowel (p : LanguageProfile) (ipa : String) : Bool :=
  match p.phoneticInventory.get_phoneme ipa with
  | some u => u.isVowel && !is_reduced_vowel ipa
  | none => false

/-- LanguageProfileGenerator::find_full_vowel_in_group. -/
def find_full_vowel_in_group (p : LanguageProfile) (groupName : String) : Option String :=
  match p.phoneticInventory.get_group groupName with
  | none => none
  | some groupPhonemes => groupPhonemes.find? (fun ph => is_full_vowel p ph)

/-- LanguageProfileGenerator::find_reduced_vowel_in_group: first reduced
group member, falling back to schwa (when the inventory has it) both when
the group is missing and when it holds no reduced vowel. -/
def find_reduced_vowel_in_group (p : LanguageProfile) (groupName : String) : Option String :=
  let fallback : Option String :=
    if (p.phoneticInventory.get_phoneme ("[ə]")).isSome then some ("[ə]") else none
  match p.phoneticInventory.get_group groupName with
  | none => fallback
  | some groupPhonemes =>
    match groupPhonemes.find? (fun ph => is_reduced_vowel ph) with
    | some v => some v
    | none => fallback

/-- LanguageProfileGenerator::prefer_full_vowels. -/
def prefer_full_vowels (p : LanguageProfile) (syl : Syllable) : Syllable :=
  match syl.nucleus.head? with
  | none => syl
  | some cur =>
    if is_reduced_vowel cur then
      match determine_vowel_group p cur with
      | none => syl
      | some g =>
        match find_full_vowel_in_group p g with
        | none => syl
        | some fv => { syl with nucleus := [fv] }
    else syl

/-- LanguageProfileGenerator::prefer_reduced_vowels. -/
def prefer_reduced_vowels (p : LanguageProfile) (syl : Syllable) : Syllable :=
  match syl.nucleus.head? with
  | none => syl
  | some cur =>
    if is_full_vowel p cur then
      match determine_vowel_group p cur with
      | none => syl
      | some g =>
        match find_reduced_vowel_in_group p g with
        | none => syl
        | some rv => { syl with nucleus := [rv] }
    else syl

/-- LanguageProfileGenerator::apply_stress_dependent_vowel_quality: for
each syllable draw from the ambient thread RNG; when the draw is below the
rule strength, push stressed syllables toward full vowels and unstressed
ones toward reduced vowels. -/
def apply_stress_dependent_vowel_quality (p : LanguageProfile) (rule : HarmonyRule) :
    List Syllable → RngStream → List Syllable × RngStream
  | [], ts => ([], ts)
  | syl :: rest, ts =>
    let d := genFloat ts
    let syl' :=
      if d.1 < rule.strength then
        if syl.stressed then prefer_full_vowels p syl else prefer_reduced_vowels p syl
      else syl
    let r := apply_stress_dependent_vowel_quality p rule rest d.2
    (syl' :: r.1, r.2)

/-- The dispatch on one rule name inside
LanguageProfileGenerator::apply_harmony_rules; unknown names are skipped. -/
def applyRule (p : LanguageProfile) (rule : HarmonyRule) :
    List Syllable × RngStream → List Syllable × RngStream :=
  fun st =>
    if rule.name = "vowel_harmony" then (apply_vowel_harmony p rule st.1, st.2)
    else if rule.name = "vowel_reduction" then apply_vowel_reduction p rule st.1 st.2
    else if rule.name = "consonant_cluster_simplification" then
      apply_consonant_cluster_simplification p rule st.1 st.2
    else if rule.name = "stress_dependent_vowel_quality" then
      apply_stress_dependent_vowel_quality p rule st.1 st.2
    else st

/-- LanguageProfileGenerator::apply_harmony_rules: apply the profile's
rules once each, in declared order, threading the thread-RNG stream. -/
def apply_harmony_rules (p : LanguageProfile) :
    List HarmonyRule → List Syllable × RngStream → List Syllable × RngStream
  | [], st => st
  | rule :: rest, st => apply_harmony_rules p rest (applyRule p rule st)

/-- The accumulating slot loop inside
LanguageProfileGenerator::convert_to_graphemes: append each resolvable
symbol's grapheme, silently skipping symbols missing from the inventory. -/
def renderSlot (p : LanguageProfile) (acc : String) (slot : List String) : String :=
  slot.foldl (fun r ipa =>
    match p.phoneticInventory.get_phoneme ipa with
    | some ph => r ++ ph.grapheme
    | none => r) acc

/-- LanguageProfileGenerator::convert_to_graphemes: onset, nucleus, coda of
each syllable in order, concatenated with no separators. -/
def convert_to_graphemes (p : LanguageProfile) (syllables : List Syllable) : String :=
  syllables.foldl (fun result syl =>
    renderSlot p (renderSlot p (renderSlot p result syl.onset) syl.nucleus) syl.coda) ""

/-- LanguageProfileGenerator::generate: draw the syllable count, build the
syllables from the supplied RNG stream `s`, assign stress, run the rule
pipeline (whose probabilistic rules draw from the ambient thread-RNG
stream `ts`), and render.  `none` embeds a panic: an empty pattern list,
or an empty syllable-count range (`gen_range` panics when `min > max`). -/
def generate (p : LanguageProfile) (s ts : RngStream) : Option String :=
  if p.wordComposition.maxSyllables < p.wordComposition.minSyllables then none
  else
    let c := genRangeNat p.wordComposition.minSyllables p.wordComposition.maxSyllables s
    match genSyllables p c.1 c.2 with
    | (none, _) => none
    | (some syllables, _) =>
      let stressed := assign_stress_patterns syllables
      let piped := apply_harmony_rules p p.styleRules.harmonyRules (stressed, ts)
      some (convert_to_graphemes p piped.1)

/-! Helper lemmas about the stress loop. -/

/-- Characterization of the stress loop: the syllable at offset `i` of the
loop started at absolute index `k` is the input syllable, marked stressed
when its absolute index is 0 or an even index ≥ 2. -/
theorem stressLoop_get? (l : List Syllable) : ∀ (k i : Nat),
    (stressLoop k l).get? i = (l.get? i).map (fun syl =>
      if k + i = 0 ∨ (2 ≤ k + i ∧ (k + i) % 2 = 0) then { syl with stressed := true } else syl) := by
  induction l with
  | nil => intro k i; simp [stressLoop]
  | cons syl rest ih =>
    intro k i
    cases i with
    | zero => simp [stressLoop]
    | succ i =>
      have harith : k + 1 + i = k + (i + 1) := by omega
      rw [stressLoop, List.get?_cons_succ, List.get?_cons_succ, ih (k + 1) i, harith]

/-- Characterization of assign_stress_patterns through `List.get?`. -/
theorem assign_stress_patterns_get? (l : List Syllable) (i : Nat) :
    (assign_stress_patterns l).get? i = (l.get? i).map (fun syl =>
      if i = 0 ∨ (2 ≤ i ∧ i % 2 = 0) then { syl with stressed := true } else syl) := by
  rw [assign_stress_patterns]
  by_cases h : l.isEmpty
  · rw [if_pos h]
    cases l with
    | nil => simp
    | cons a t => simp at h
  · rw [if_neg h]
    have := stressLoop_get? l 0 i
    simpa using this

/-- C5: the stress assigner is a no-op on the empty sequence; on a fresh
(all-unstressed) sequence it stresses exactly index 0 and every even index
≥ 2, leaving every other index (in particular index 1) unstressed. -/
theorem assign_stress_patterns_spec (syllables : List Syllable)
    (hfresh : ∀ syl ∈ syllables, syl.stressed = false) :
    assign_stress_patterns [] = [] ∧
    ∀ i, ((assign_stress_patterns syllables).get? i).map Syllable.stressed =
      (syllables.get? i).map (fun _ => decide (i = 0 ∨ (2 ≤ i ∧ i % 2 = 0))) := by
  refine ⟨rfl, fun i => ?_⟩
  rw [assign_stress_patterns_get?]
  cases h : syllables.get? i with
  | none => simp
  | some syl =>
    have hmem : syl ∈ syllables := List.get?_mem h
    have hs : syl.stressed = false := hfresh syl hmem
    by_cases hc : i = 0 ∨ (2 ≤ i ∧ i % 2 = 0)
    · simp [hc]
    · simp [hc, hs]

/-- C5 witness: on five fresh syllables the stressed indices are exactly
0, 2, 4. -/
theorem assign_stress_patterns_spec_witness :
    ((assign_stress_patterns [⟨[], [], [], false⟩, ⟨[], [], [], false⟩, ⟨[], [], [], false⟩,
        ⟨[], [], [], false⟩, ⟨[], [], [], false⟩]).get? 0).map Syllable.stressed = some true ∧
    ((assign_stress_patterns [⟨[], [], [], false⟩, ⟨[], [], [], false⟩, ⟨[], [], [], false⟩,
        ⟨[], [], [], false⟩, ⟨[], [], [], false⟩]).get? 1).map Syllable.stressed = some false ∧
    ((assign_stress_patterns [⟨[], [], [], false⟩, ⟨[], [], [], false⟩, ⟨[], [], [], false⟩,
        ⟨[], [], [], false⟩, ⟨[], [], [], false⟩]).get? 2).map Syllable.stressed = some true ∧
    ((assign_stress_patterns [⟨[], [], [], false⟩, ⟨[], [], [], false⟩, ⟨[], [], [], false⟩,
        ⟨[], [], [], false⟩, ⟨[], [], [], false⟩]).get? 3).map Syllable.stressed = some false ∧
    ((assign_stress_patterns [⟨[], [], [], false⟩, ⟨[], [], [], false⟩, ⟨[], [], [], false⟩,
        ⟨[], [], [], false⟩, ⟨[], [], [], false⟩]).get? 4).map Syllable.stressed = some true :=
  ⟨((assign_stress_patterns_spec _ (by decide)).2 0).trans (by decide),
   ((assign_stress_patterns_spec _ (by decide)).2 1).trans (by decide),
   ((assign_stress_patterns_spec _ (by decide)).2 2).trans (by decide),
   ((assign_stress_patterns_spec _ (by decide)).2 3).trans (by decide),
   ((assign_stress_patterns_spec _ (by decide)).2 4).trans (by decide)⟩

/-- C10: the stress assigner only writes stressed flags: every syllable's
onset, nucleus and coda are unchanged, and a flag that was true stays
true. -/
theorem assign_stress_patterns_frame (syllables : List Syllable) (i : Nat)
    (syl syl' : Syllable)
    (h1 : syllables.get? i = some syl)
    (h2 : (assign_stress_patterns syllables).get? i = some syl') :
    syl'.onset = syl.onset ∧ syl'.nucleus = syl.nucleus ∧ syl'.coda = syl.coda ∧
      (syl.stressed = true → syl'.stressed = true) := by
  rw [assign_stress_patterns_get?, h1] at h2
  simp only [Option.map_some'] at h2
  by_cases hc : i = 0 ∨ (2 ≤ i ∧ i % 2 = 0)
  · rw [if_pos hc] at h2
    cases h2.symm
    exact ⟨rfl, rfl, rfl, fun _ => rfl⟩
  · rw [if_neg hc] at h2
    cases h2.symm
    exact ⟨rfl, rfl, rfl, fun h => h⟩

/-- C10 witness: a syllable already stressed at index 1 keeps its slots and
its flag. -/
theorem assign_stress_patterns_frame_witness :
    (Syllable.onset ⟨["[t]"], ["[a]"], ["[s]"], true⟩ = ["[t]"] ∧
     Syllable.stressed ⟨["[t]"], ["[a]"], ["[s]"], true⟩ = true) := by
  have h := assign_stress_patterns_frame
    [⟨[], [], [], false⟩, ⟨["[t]"], ["[a]"], ["[s]"], true⟩] 1
    ⟨["[t]"], ["[a]"], ["[s]"], true⟩ ⟨["[t]"], ["[a]"], ["[s]"], true⟩
    (by decide) (by decide)
  exact ⟨h.1, h.2.2.2 rfl⟩

/-! Helper lemmas about weighted_choice. -/

/-- The embedded WeightedIndex sample index never reaches past the last
entry of a non-empty weight list. -/
theorem cdfIndex_lt_length : ∀ (l : List ℚ) (x : ℚ), l ≠ [] → cdfIndex l x < l.length := by
  intro l
  induction l with
  | nil => intro x h; exact absurd rfl h
  | cons w t ih =>
    intro x _
    cases t with
    | nil => simp [cdfIndex]
    | cons b t2 =>
      rw [cdfIndex]
      split
      · simp
      · have := ih (x - w) (by simp)
        simp only [List.length_cons] at this ⊢
        omega

/-- The uniform index draw stays within the inclusive upper bound. -/
theorem genRangeNat_fst_le (lo hi : Nat) (s : RngStream) : (genRangeNat lo hi s).1 ≤ hi :=
  Nat.min_le_right _ _

/-- The range draw stays at or above the lower bound when the range is
non-empty. -/
theorem genRangeNat_fst_ge (lo hi : Nat) (s : RngStream) (h : lo ≤ hi) :
    lo ≤ (genRangeNat lo hi s).1 :=
  Nat.le_min.mpr ⟨Nat.le_add_right _ _, h⟩

/-- On a non-empty list, weighted_choice selects by some in-range index. -/
theorem weighted_choice_index (clusters : List PhonemeCluster) (s : RngStream)
    (h : clusters ≠ []) :
    ∃ i, i < clusters.length ∧ (weighted_choice clusters s).1 = clusters.get? i := by
  have hlen : 0 < clusters.length := List.length_pos.mpr h
  have hne : clusters.isEmpty = false := by
    cases clusters with
    | nil => exact absurd rfl h
    | cons a t => rfl
  rw [weighted_choice, hne]
  simp only [Bool.false_eq_true, if_false]
  split
  · refine ⟨(genRangeNat 0 (clusters.length - 1) s).1, ?_, rfl⟩
    have := genRangeNat_fst_le 0 (clusters.length - 1) s
    omega
  · split
    · refine ⟨(genRangeNat 0 (clusters.length - 1) s).1, ?_, rfl⟩
      have := genRangeNat_fst_le 0 (clusters.length - 1) s
      omega
    · refine ⟨cdfIndex (clusters.map PhonemeCluster.frequency) ((genFloat s).1 *
        (clusters.map PhonemeCluster.frequency).sum), ?_, rfl⟩
      have hmapne : clusters.map PhonemeCluster.frequency ≠ [] := by
        cases clusters with
        | nil => exact absurd rfl h
        | cons a t => simp
      have := cdfIndex_lt_length (clusters.map PhonemeCluster.frequency)
        ((genFloat s).1 * (clusters.map PhonemeCluster.frequency).sum) hmapne
      simpa using this

/-- Shared helper: whenever the weighted distribution is rejected (total
≤ 0, or an individual negative weight), weighted_choice performs exactly
the uniform index draw. -/
theorem weighted_choice_uniform_fallback (clusters : List PhonemeCluster) (s : RngStream)
    (h : clusters ≠ [])
    (hbad : (clusters.map PhonemeCluster.frequency).sum ≤ 0 ∨
      ∃ w ∈ clusters.map PhonemeCluster.frequency, w < 0) :
    weighted_choice clusters s =
      (clusters.get? (genRangeNat 0 (clusters.length - 1) s).1,
        (genRangeNat 0 (clusters.length - 1) s).2) := by
  have hne' : clusters.isEmpty = false := by
    cases clusters with
    | nil => exact absurd rfl h
    | cons a t => rfl
  rw [weighted_choice, hne']
  simp only [Bool.false_eq_true, if_false]
  by_cases h1 : (clusters.map PhonemeCluster.frequency).sum ≤ 0
  · rw [if_pos h1]
  · rw [if_neg h1]
    have h2 : ((clusters.map PhonemeCluster.frequency).any fun w => w < 0) = true := by
      rcases hbad with h1' | ⟨w, hw, hneg⟩
      · exact absurd h1' h1
      · exact List.any_eq_true.mpr ⟨w, hw, by simpa using hneg⟩
    rw [if_pos h2]

/-- Shared helper: a non-empty pattern list with total weight ≤ 0 yields
the first pattern and consumes no randomness. -/
theorem get_random_pattern_zero_total (ss : SyllableStructure) (s : RngStream)
    (h : ss.patterns ≠ []) (h1 : (ss.patterns.map SyllablePattern.frequency).sum ≤ 0) :
    ss.get_random_pattern s = (ss.patterns.head?, s) := by
  have hne' : ss.patterns.isEmpty = false := by
    cases hp : ss.patterns with
    | nil => exact absurd hp h
    | cons a t => rfl
  rw [SyllableStructure.get_random_pattern, hne']
  simp only [Bool.false_eq_true, if_false]
  rw [if_pos h1]

/-- C9: weighted_choice returns `none` exactly on the empty list; on a
non-empty list it always returns a member of the list; and when the
weighted distribution is rejected (total weight ≤ 0, or some individual
weight negative) it falls back to the uniform random-index draw rather
than failing. -/
theorem weighted_choice_total_spec (clusters : List PhonemeCluster) (s : RngStream) :
    ((weighted_choice clusters s).1 = none ↔ clusters = []) ∧
    (∀ cl, (weighted_choice clusters s).1 = some cl → cl ∈ clusters) ∧
    (clusters ≠ [] →
      ((clusters.map PhonemeCluster.frequency).sum ≤ 0 ∨
        ∃ w ∈ clusters.map PhonemeCluster.frequency, w < 0) →
      weighted_choice clusters s =
        (clusters.get? (genRangeNat 0 (clusters.length - 1) s).1,
          (genRangeNat 0 (clusters.length - 1) s).2)) := by
  refine ⟨⟨?_, ?_⟩, ?_, ?_⟩
  · intro hnone
    by_contra hne
    obtain ⟨i, hi, heq⟩ := weighted_choice_index clusters s hne
    rw [heq, List.get?_eq_get hi] at hnone
    exact Option.noConfusion hnone
  · intro h
    subst h
    rfl
  · intro cl hcl
    by_cases hne : clusters = []
    · subst hne
      exact Option.noConfusion hcl
    · obtain ⟨i, hi, heq⟩ := weighted_choice_index clusters s hne
      rw [heq] at hcl
      exact List.get?_mem hcl
  · intro hne hbad
    exact weighted_choice_uniform_fallback clusters s hne hbad

/-- Cluster list with a negative weight, used by the C9 witness. -/
def exNegClusters : List PhonemeCluster := [⟨["[p]"], -1⟩, ⟨["[t]"], 2⟩]

/-- C9 witness: a list whose weights are rejected (one negative weight,
positive total) still yields a member through the uniform fallback. -/
theorem weighted_choice_total_spec_witness :
    weighted_choice exNegClusters [mkRat 1 2] =
      (exNegClusters.get? (genRangeNat 0 (exNegClusters.length - 1) [mkRat 1 2]).1,
        (genRangeNat 0 (exNegClusters.length - 1) [mkRat 1 2]).2) :=
  (weighted_choice_total_spec exNegClusters [mkRat 1 2]).2.2 (by decide)
    (Or.inr (by with_unfolding_all decide))

/-- The C3 claim's fallback in the spec's words: when the total weight is
≤ 0, the selected item is the one at a uniformly random index. -/
def uniformIndexFallbackSpec (patterns : List SyllablePattern) (s : RngStream) :
    Option SyllablePattern :=
  patterns.get? (genRangeNat 0 (patterns.length - 1) s).1

/-- Zero-weight two-pattern structure used by the C3 theorems. -/
def exPatternsZero : SyllableStructure := ⟨[⟨"CV", 0⟩, ⟨"CVC", 0⟩], [], [], []⟩

/-- C3 counterexample: on an all-zero-weight pattern list the engine does
NOT pick a uniformly random index — it returns the first pattern and
ignores the RNG, while the uniform-index rule would select the second
pattern for this stream. -/
theorem get_random_pattern_zero_total_counterexample :
    exPatternsZero.patterns ≠ [] ∧
    (exPatternsZero.patterns.map SyllablePattern.frequency).sum ≤ 0 ∧
    (exPatternsZero.get_random_pattern [mkRat 1 2]).1 = some ⟨"CV", 0⟩ ∧
    uniformIndexFallbackSpec exPatternsZero.patterns [mkRat 1 2] = some ⟨"CVC", 0⟩ ∧
    (⟨"CV", 0⟩ : SyllablePattern) ≠ ⟨"CVC", 0⟩ := by
  with_unfolding_all decide

/-- C3 amended: on total weight ≤ 0 the cluster lists (onset, nucleus,
coda) fall back to a uniformly random index, but the syllable-template
list instead returns its first pattern, consuming no randomness. -/
theorem weighted_fallback_amended (clusters : List PhonemeCluster)
    (ss : SyllableStructure) (s : RngStream) :
    (clusters ≠ [] → (clusters.map PhonemeCluster.frequency).sum ≤ 0 →
      weighted_choice clusters s =
        (clusters.get? (genRangeNat 0 (clusters.length - 1) s).1,
          (genRangeNat 0 (clusters.length - 1) s).2)) ∧
    (ss.patterns ≠ [] → (ss.patterns.map SyllablePattern.frequency).sum ≤ 0 →
      ss.get_random_pattern s = (ss.patterns.head?, s)) :=
  ⟨fun hne h1 => weighted_choice_uniform_fallback clusters s hne (Or.inl h1),
   fun hne h1 => get_random_pattern_zero_total ss s hne h1⟩

/-- All-zero-weight cluster list used by the C3 witness. -/
def exZeroClusters : List PhonemeCluster := [⟨["[a]"], 0⟩, ⟨["[i]"], 0⟩]

/-- C3 amended witness: concrete zero-total lists exercising both the
uniform cluster fallback and the first-pattern template fallback. -/
theorem weighted_fallback_amended_witness :
    weighted_choice exZeroClusters [mkRat 3 4] =
      (exZeroClusters.get? (genRangeNat 0 (exZeroClusters.length - 1) [mkRat 3 4]).1,
        (genRangeNat 0 (exZeroClusters.length - 1) [mkRat 3 4]).2) ∧
    exPatternsZero.get_random_pattern [] = (exPatternsZero.patterns.head?, []) :=
  ⟨(weighted_fallback_amended exZeroClusters exPatternsZero [mkRat 3 4]).1 (by decide)
      (by with_unfolding_all decide),
   (weighted_fallback_amended exZeroClusters exPatternsZero []).2 (by decide)
      (by with_unfolding_all decide)⟩

/-- Shared helper: a successful weighted_choice result is a member of the
sampled list. -/
theorem weighted_choice_mem (clusters : List PhonemeCluster) (s : RngStream)
    (cl : PhonemeCluster) (h : (weighted_choice clusters s).1 = some cl) :
    cl ∈ clusters := by
  by_cases hne : clusters = []
  · subst hne
    exact Option.noConfusion h
  · obtain ⟨i, hi, heq⟩ := weighted_choice_index clusters s hne
    rw [heq] at h
    exact List.get?_mem h

/-- Shared helper: weighted_choice succeeds on every non-empty list. -/
theorem weighted_choice_fst_isSome (clusters : List PhonemeCluster) (s : RngStream)
    (h : clusters ≠ []) : ∃ cl, (weighted_choice clusters s).1 = some cl := by
  obtain ⟨i, hi, heq⟩ := weighted_choice_index clusters s h
  exact ⟨_, heq.trans (List.get?_eq_get hi)⟩

/-- C4: one step of the shape scan.  A character other than `C`/`V` is
ignored; `C` with an empty nucleus touches only the onset, `C` with a
filled nucleus touches only the coda, `V` touches only the nucleus; each
touched slot is REPLACED by the phonemes of a single drawn cluster (never
appended to), and is replaced by some drawn cluster whenever the relevant
cluster list is non-empty. -/
theorem generate_syllable_slot_policy (p : LanguageProfile) (c : Char)
    (syl : Syllable) (s : RngStream) :
    (¬ c = 'C' → ¬ c = 'V' → syllableStep p c (syl, s) = (syl, s)) ∧
    (c = 'C' → syl.nucleus = [] →
      (syllableStep p c (syl, s)).1.nucleus = syl.nucleus ∧
      (syllableStep p c (syl, s)).1.coda = syl.coda ∧
      (syllableStep p c (syl, s)).1.stressed = syl.stressed ∧
      ((syllableStep p c (syl, s)).1.onset = syl.onset ∨
        ∃ cl ∈ p.syllableStructure.onsets,
          (syllableStep p c (syl, s)).1.onset = cl.phonemes) ∧
      (p.syllableStructure.onsets ≠ [] →
        ∃ cl ∈ p.syllableStructure.onsets,
          (syllableStep p c (syl, s)).1.onset = cl.phonemes)) ∧
    (c = 'C' → ¬ syl.nucleus = [] →
      (syllableStep p c (syl, s)).1.onset = syl.onset ∧
      (syllableStep p c (syl, s)).1.nucleus = syl.nucleus ∧
      (syllableStep p c (syl, s)).1.stressed = syl.stressed ∧
      ((syllableStep p c (syl, s)).1.coda = syl.coda ∨
        ∃ cl ∈ p.syllableStructure.codas,
          (syllableStep p c (syl, s)).1.coda = cl.phonemes) ∧
      (p.syllableStructure.codas ≠ [] →
        ∃ cl ∈ p.syllableStructure.codas,
          (syllableStep p c (syl, s)).1.coda = cl.phonemes)) ∧
    (c = 'V' →
      (syllableStep p c (syl, s)).1.onset = syl.onset ∧
      (syllableStep p c (syl, s)).1.coda = syl.coda ∧
      (syllableStep p c (syl, s)).1.stressed = syl.stressed ∧
      ((syllableStep p c (syl, s)).1.nucleus = syl.nucleus ∨
        ∃ cl ∈ p.syllableStructure.nuclei,
          (syllableStep p c (syl, s)).1.nucleus = cl.phonemes) ∧
      (p.syllableStructure.nuclei ≠ [] →
        ∃ cl ∈ p.syllableStructure.nuclei,
          (syllableStep p c (syl, s)).1.nucleus = cl.phonemes)) := by
  refine ⟨?_, ?_, ?_, ?_⟩
  · intro hC hV
    simp [syllableStep, hC, hV]
  · intro hC hn
    subst hC
    have hn' : syl.nucleus.isEmpty = true := by simp [hn]
    simp only [syllableStep, if_pos rfl, hn', if_true]
    cases hwc : weighted_choice p.syllableStructure.onsets s with
    | mk o s2 =>
      cases o with
      | none =>
        refine ⟨rfl, rfl, rfl, Or.inl rfl, fun hne => ?_⟩
        obtain ⟨cl, hcl⟩ := weighted_choice_fst_isSome p.syllableStructure.onsets s hne
        rw [hwc] at hcl
        exact Option.noConfusion hcl
      | some cl =>
        have hmem : cl ∈ p.syllableStructure.onsets :=
          weighted_choice_mem p.syllableStructure.onsets s cl (by rw [hwc])
        exact ⟨rfl, rfl, rfl, Or.inr ⟨cl, hmem, rfl⟩, fun _ => ⟨cl, hmem, rfl⟩⟩
  · intro hC hn
    subst hC
    have hn' : syl.nucleus.isEmpty = false := by
      cases h : syl.nucleus with
      | nil => exact absurd h hn
      | cons a t => rfl
    simp only [syllableStep, if_pos rfl, hn', Bool.false_eq_true, if_false]
    cases hwc : weighted_choice p.syllableStructure.codas s with
    | mk o s2 =>
      cases o with
      | none =>
        refine ⟨rfl, rfl, rfl, Or.inl rfl, fun hne => ?_⟩
        obtain ⟨cl, hcl⟩ := weighted_choice_fst_isSome p.syllableStructure.codas s hne
        rw [hwc] at hcl
        exact Option.noConfusion hcl
      | some cl =>
        have hmem : cl ∈ p.syllableStructure.codas :=
          weighted_choice_mem p.syllableStructure.codas s cl (by rw [hwc])
        exact ⟨rfl, rfl, rfl, Or.inr ⟨cl, hmem, rfl⟩, fun _ => ⟨cl, hmem, rfl⟩⟩
  · intro hV
    subst hV
    have hCV : ¬ ('V' = 'C') := by decide
    simp only [syllableStep, if_neg hCV, if_pos rfl]
    cases hwc : weighted_choice p.syllableStructure.nuclei s with
    | mk o s2 =>
      cases o with
      | none =>
        refine ⟨rfl, rfl, rfl, Or.inl rfl, fun hne => ?_⟩
        obtain ⟨cl, hcl⟩ := weighted_choice_fst_isSome p.syllableStructure.nuclei s hne
        rw [hwc] at hcl
        exact Option.noConfusion hcl
      | some cl =>
        have hmem : cl ∈ p.syllableStructure.nuclei :=
          weighted_choice_mem p.syllableStructure.nuclei s cl (by rw [hwc])
        exact ⟨rfl, rfl, rfl, Or.inr ⟨cl, hmem, rfl⟩, fun _ => ⟨cl, hmem, rfl⟩⟩

/-- Profile with a two-symbol onset cluster, used by the C4 witness. -/
def exProfileSlots : LanguageProfile :=
  ⟨"slots", ⟨[], []⟩,
   ⟨[⟨"CV", 1⟩], [⟨["[p]", "[r]"], 1⟩], [⟨["[a]"], 1⟩], []⟩,
   ⟨1, 1, [], [], []⟩, ⟨[], []⟩⟩

/-- C4 witness: an unknown shape character is a no-op, and a `C` on an
empty-nucleus syllable leaves the nucleus untouched. -/
theorem generate_syllable_slot_policy_witness :
    syllableStep exProfileSlots 'x' (⟨[], [], [], false⟩, []) = (⟨[], [], [], false⟩, []) ∧
    (syllableStep exProfileSlots 'C' (⟨[], [], [], false⟩, [0])).1.nucleus =
      Syllable.nucleus ⟨[], [], [], false⟩ :=
  ⟨(generate_syllable_slot_policy exProfileSlots 'x' ⟨[], [], [], false⟩ []).1
      (by decide) (by decide),
   ((generate_syllable_slot_policy exProfileSlots 'C' ⟨[], [], [], false⟩ [0]).2.1
      rfl rfl).1⟩

/-- C6: vowel harmony ignores the rule's strength; it is a no-op when the
word is empty, when syllable 0 has no nucleus, or when no group contains
syllable 0's first nucleus symbol; otherwise every later syllable whose
lookup yields a harmonizing vowel (the first member of the matched group
that resolves in the inventory to a vowel — the same vowel for every
syllable) has its entire nucleus replaced by that single symbol. -/
theorem apply_vowel_harmony_spec (p : LanguageProfile) (rule rule' : HarmonyRule)
    (s0 : Syllable) (rest : List Syllable) :
    apply_vowel_harmony p rule [] = [] ∧
    apply_vowel_harmony p rule (s0 :: rest) = apply_vowel_harmony p rule' (s0 :: rest) ∧
    (s0.nucleus = [] → apply_vowel_harmony p rule (s0 :: rest) = s0 :: rest) ∧
    (∀ fv, s0.nucleus.head? = some fv → determine_vowel_group p fv = none →
      apply_vowel_harmony p rule (s0 :: rest) = s0 :: rest) ∧
    (∀ fv g, s0.nucleus.head? = some fv → determine_vowel_group p fv = some g →
      apply_vowel_harmony p rule (s0 :: rest) =
        s0 :: rest.map (fun syl =>
          match (p.phoneticInventory.get_group g).bind
              (List.find? (fun ph =>
                match p.phoneticInventory.get_phoneme ph with
                | some u => u.isVowel
                | none => false)) with
          | some v => { syl with nucleus := [v] }
          | none => syl)) := by
  refine ⟨rfl, rfl, ?_, ?_, ?_⟩
  · intro h
    simp [apply_vowel_harmony, h]
  · intro fv h hg
    rw [apply_vowel_harmony, h]
    simp only [hg, find_harmonizing_vowel]
    simp [List.map_id]
  · intro fv g h hg
    rw [apply_vowel_harmony, h]
    simp only [hg, find_harmonizing_vowel]
    cases hgl : p.phoneticInventory.get_group g with
    | none => simp [List.map_id]
    | some gl => simp

/-- Inventory with a front-vowel group (whose first member is absent from
the inventory), used by the C6 witness. -/
def exProfileHarmony : LanguageProfile :=
  ⟨"harmony",
   ⟨[⟨"[e]", PhonemeType.Vowel, "e", 1⟩, ⟨"[i]", PhonemeType.Vowel, "i", 1⟩,
     ⟨"[a]", PhonemeType.Vowel, "a", 1⟩],
    [("front", ["[x]", "[e]", "[i]"])]⟩,
   ⟨[], [], [], []⟩, ⟨1, 1, [], [], []⟩, ⟨[], []⟩⟩

/-- C6 witness: with syllable 0's nucleus in the "front" group, the second
syllable's nucleus is replaced by the group's first inventory vowel. -/
theorem apply_vowel_harmony_spec_witness :
    apply_vowel_harmony exProfileHarmony ⟨"vowel_harmony", "always", none, none, 1⟩
      [⟨[], ["[e]"], [], true⟩, ⟨[], ["[a]"], [], false⟩] =
      [⟨[], ["[e]"], [], true⟩, ⟨[], ["[e]"], [], false⟩] :=
  ((apply_vowel_harmony_spec exProfileHarmony ⟨"vowel_harmony", "always", none, none, 1⟩
      ⟨"vowel_harmony", "always", none, none, 1⟩ ⟨[], ["[e]"], [], true⟩
      [⟨[], ["[a]"], [], false⟩]).2.2.2.2 ("[e]") ("front") rfl (by decide)).trans
    (by decide)

/-- The renderer's per-symbol output in the spec's words: the grapheme of
the symbol's inventory entry, or nothing when the symbol is missing. -/
def renderSymbol (p : LanguageProfile) (ipa : String) : String :=
  match p.phoneticInventory.get_phoneme ipa with
  | some ph => ph.grapheme
  | none => ""

/-- Concatenation with no separators, per the spec's words. -/
def concatStrings : List String → String
  | [] => ""
  | x :: xs => x ++ concatStrings xs

/-- The renderer's per-syllable output in the spec's words: onset, then
nucleus, then coda. -/
def renderSyllableSpec (p : LanguageProfile) (syl : Syllable) : String :=
  concatStrings (syl.onset.map (renderSymbol p)) ++
    concatStrings (syl.nucleus.map (renderSymbol p)) ++
    concatStrings (syl.coda.map (renderSymbol p))

/-- Helper: the accumulating slot loop appends exactly the slot's rendered
symbols. -/
theorem renderSlot_eq (p : LanguageProfile) (slot : List String) : ∀ acc : String,
    renderSlot p acc slot = acc ++ concatStrings (slot.map (renderSymbol p)) := by
  induction slot with
  | nil =>
    intro acc
    simp [renderSlot, concatStrings, String.append_empty]
  | cons ipa rest ih =>
    intro acc
    simp only [renderSlot, List.foldl_cons] at ih ⊢
    rw [ih, List.map_cons, concatStrings, ← String.append_assoc]
    congr 1
    cases h : p.phoneticInventory.get_phoneme ipa with
    | some ph => simp [renderSymbol, h]
    | none => simp [renderSymbol, h, String.append_empty]

/-- Helper: the whole renderer loop appends the rendering of every
syllable in order. -/
theorem convert_fold_eq (p : LanguageProfile) (syllables : List Syllable) : ∀ acc : String,
    syllables.foldl (fun result syl =>
      renderSlot p (renderSlot p (renderSlot p result syl.onset) syl.nucleus) syl.coda) acc =
      acc ++ concatStrings (syllables.map (renderSyllableSpec p)) := by
  induction syllables with
  | nil =>
    intro acc
    simp [concatStrings, String.append_empty]
  | cons syl rest ih =>
    intro acc
    rw [List.foldl_cons, ih, List.map_cons, concatStrings,
      renderSlot_eq, renderSlot_eq, renderSlot_eq, renderSyllableSpec]
    simp [String.append_assoc]

/-- C8: the renderer is total and equals the specified flattening — every
syllable in order, slots in order onset, nucleus, coda, each symbol's
grapheme looked up in the inventory, missing symbols silently skipped, no
separators. -/
theorem convert_to_graphemes_spec (p : LanguageProfile) (syllables : List Syllable) :
    convert_to_graphemes p syllables = concatStrings (syllables.map (renderSyllableSpec p)) := by
  rw [convert_to_graphemes, convert_fold_eq, String.empty_append]

/-- Cumulative weight of the first `n` patterns, used to state the
first-crossing property in the spec's words. -/
def prefixWeight (patterns : List SyllablePattern) (n : Nat) : ℚ :=
  ((patterns.take n).map SyllablePattern.frequency).sum

/-- Unfolding of prefixWeight over a cons cell. -/
theorem prefixWeight_cons (pat : SyllablePattern) (rest : List SyllablePattern) (n : Nat) :
    prefixWeight (pat :: rest) (n + 1) = pat.frequency + prefixWeight rest n := by
  simp [prefixWeight]

/-- The empty prefix has weight zero. -/
theorem prefixWeight_zero (patterns : List SyllablePattern) :
    prefixWeight patterns 0 = 0 := by
  simp [prefixWeight]

/-- A successful subtractive scan returns a member of the list. -/
theorem patternScan_mem : ∀ (l : List SyllablePattern) (r : ℚ) (pat : SyllablePattern),
    patternScan l r = some pat → pat ∈ l := by
  intro l
  induction l with
  | nil => intro r pat h; exact Option.noConfusion h
  | cons q rest ih =>
    intro r pat h
    rw [patternScan] at h
    by_cases hc : r - q.frequency ≤ 0
    · rw [if_pos hc] at h
      cases h
      exact List.mem_cons_self _ _
    · rw [if_neg hc] at h
      exact List.mem_cons_of_mem _ (ih _ pat h)

/-- The subtractive scan exhausts the list exactly when no prefix sum ever
reaches the drawn value. -/
theorem patternScan_eq_none_iff : ∀ (l : List SyllablePattern) (r : ℚ),
    patternScan l r = none ↔ ∀ i, i < l.length → ¬ (r ≤ prefixWeight l (i + 1)) := by
  intro l
  induction l with
  | nil => intro r; simp [patternScan]
  | cons pat rest ih =>
    intro r
    rw [patternScan]
    by_cases hc : r - pat.frequency ≤ 0
    · rw [if_pos hc]
      constructor
      · intro h; exact Option.noConfusion h
      · intro h
        exfalso
        refine h 0 (by simp) ?_
        rw [prefixWeight_cons, prefixWeight_zero]
        linarith
    · rw [if_neg hc, ih (r - pat.frequency)]
      constructor
      · intro h i hi hle
        cases i with
        | zero =>
          rw [prefixWeight_cons, prefixWeight_zero] at hle
          exact hc (by linarith)
        | succ j =>
          refine h j (by simpa using hi) ?_
          rw [prefixWeight_cons] at hle
          linarith
      · intro h i hi hle
        refine h (i + 1) (by simpa using hi) ?_
        rw [prefixWeight_cons]
        linarith

/-- The subtractive scan returns exactly the pattern at the first index
whose prefix sum reaches the drawn value. -/
theorem patternScan_first_crossing : ∀ (l : List SyllablePattern) (r : ℚ) (i : Nat),
    i < l.length → (∀ j, j < i → ¬ (r ≤ prefixWeight l (j + 1))) →
    r ≤ prefixWeight l (i + 1) → patternScan l r = l.get? i := by
  intro l
  induction l with
  | nil => intro r i hi _ _; simp at hi
  | cons pat rest ih =>
    intro r i hi hprev hle
    rw [patternScan]
    cases i with
    | zero =>
      rw [prefixWeight_cons, prefixWeight_zero] at hle
      rw [if_pos (by linarith)]
      rfl
    | succ j =>
      have h0 := hprev 0 (Nat.succ_pos j)
      rw [prefixWeight_cons, prefixWeight_zero] at h0
      have hc : ¬ (r - pat.frequency ≤ 0) := fun hcon => h0 (by linarith)
      rw [if_neg hc]
      rw [List.get?_cons_succ]
      refine ih (r - pat.frequency) j (by simpa using hi) ?_ ?_
      · intro k hk
        have := hprev (k + 1) (by omega)
        rw [prefixWeight_cons] at this
        intro hcon
        exact this (by linarith)
      · rw [prefixWeight_cons] at hle
        linarith

/-- C7: with a positive total weight on a non-empty pattern list, the
sampler consumes one draw, multiplies it by the total, returns the pattern
at the first index whose cumulative weight reaches that value, falls back
to the last pattern when no prefix ever reaches it, and in all cases
returns some member of the list. -/
theorem get_random_pattern_first_crossing (ss : SyllableStructure) (s : RngStream) (r : ℚ)
    (h1 : ss.patterns ≠ [])
    (h2 : 0 < (ss.patterns.map SyllablePattern.frequency).sum)
    (hr : r = (genFloat s).1 * (ss.patterns.map SyllablePattern.frequency).sum) :
    (∃ pat ∈ ss.patterns, (ss.get_random_pattern s).1 = some pat) ∧
    (ss.get_random_pattern s).2 = (genFloat s).2 ∧
    (∀ i, i < ss.patterns.length →
      (∀ j, j < i → ¬ (r ≤ prefixWeight ss.patterns (j + 1))) →
      r ≤ prefixWeight ss.patterns (i + 1) →
      (ss.get_random_pattern s).1 = ss.patterns.get? i) ∧
    ((∀ i, i < ss.patterns.length → ¬ (r ≤ prefixWeight ss.patterns (i + 1))) →
      (ss.get_random_pattern s).1 = ss.patterns.getLast?) := by
  have hne' : ss.patterns.isEmpty = false := by
    cases hp : ss.patterns with
    | nil => exact absurd hp h1
    | cons a t => rfl
  rw [SyllableStructure.get_random_pattern, hne']
  simp only [Bool.false_eq_true, if_false]
  rw [if_neg (not_le.mpr h2)]
  subst hr
  cases hscan : patternScan ss.patterns
      ((genFloat s).1 * (ss.patterns.map SyllablePattern.frequency).sum) with
  | some pat =>
    refine ⟨⟨pat, patternScan_mem _ _ _ hscan, rfl⟩, rfl, ?_, ?_⟩
    · intro i hi hprev hle
      have := patternScan_first_crossing ss.patterns _ i hi hprev hle
      rw [hscan] at this
      simpa using this
    · intro hnone
      rw [(patternScan_eq_none_iff ss.patterns _).mpr hnone] at hscan
      exact Option.noConfusion hscan
  | none =>
    have hlast : ss.patterns.getLast? = some (ss.patterns.getLast h1) :=
      List.getLast?_eq_getLast_of_ne_nil h1
    refine ⟨⟨ss.patterns.getLast h1, List.getLast_mem h1, by rw [hlast]⟩, rfl, ?_, fun _ => rfl⟩
    intro i hi hprev hle
    have := patternScan_first_crossing ss.patterns _ i hi hprev hle
    rw [hscan] at this
    rw [List.get?_eq_get hi] at this
    exact Option.noConfusion this

/-- Two-pattern structure with weights 1/3 and 2/3, used by the C7
witness. -/
def exSS7 : SyllableStructure := ⟨[⟨"CV", mkRat 1 3⟩, ⟨"V", mkRat 2 3⟩], [], [], []⟩

/-- C7 witness: the draw 1/2 crosses the cumulative weight at index 1. -/
theorem get_random_pattern_first_crossing_witness :
    (exSS7.get_random_pattern [mkRat 1 2]).1 = exSS7.patterns.get? 1 :=
  (get_random_pattern_first_crossing exSS7 [mkRat 1 2] (mkRat 1 2)
    (by decide) (by with_unfolding_all decide) (by with_unfolding_all decide)).2.2.1 1
    (by decide) (by with_unfolding_all decide) (by with_unfolding_all decide)

/-- Helper: when the nucleus cluster list is empty, no shape character can
change the nucleus slot. -/
theorem syllableStep_nucleus_of_no_nuclei (p : LanguageProfile) (c : Char)
    (syl : Syllable) (s : RngStream) (h : p.syllableStructure.nuclei = []) :
    (syllableStep p c (syl, s)).1.nucleus = syl.nucleus := by
  rw [syllableStep]
  by_cases hC : c = 'C'
  · rw [if_pos hC]
    by_cases hn : syl.nucleus.isEmpty
    · simp only [hn, if_true]
      cases hwc : weighted_choice p.syllableStructure.onsets s with
      | mk o s2 => cases o <;> rfl
    · simp only [hn, Bool.false_eq_true, if_false]
      cases hwc : weighted_choice p.syllableStructure.codas s with
      | mk o s2 => cases o <;> rfl
  · rw [if_neg hC]
    by_cases hV : c = 'V'
    · rw [if_pos hV, h]
      rfl
    · rw [if_neg hV]

/-- Helper: the shape scan keeps the nucleus empty when the nucleus
cluster list is empty. -/
theorem syllableFold_nucleus_of_no_nuclei (p : LanguageProfile)
    (h : p.syllableStructure.nuclei = []) :
    ∀ (chars : List Char) (syl : Syllable) (s : RngStream), syl.nucleus = [] →
      ((chars.foldl (fun st c => syllableStep p c st) (syl, s)).1).nucleus = [] := by
  intro chars
  induction chars with
  | nil => intro syl s hn; simpa using hn
  | cons c rest ih =>
    intro syl s hn
    rw [List.foldl_cons]
    have hstep := syllableStep_nucleus_of_no_nuclei p c syl s h
    have := ih (syllableStep p c (syl, s)).1 (syllableStep p c (syl, s)).2
      (hstep.trans hn)
    simpa using this

/-- Helper: an empty pattern list makes the pattern draw fail without
consuming randomness. -/
theorem get_random_pattern_empty (ss : SyllableStructure) (s : RngStream)
    (h : ss.patterns = []) : ss.get_random_pattern s = (none, s) := by
  simp [SyllableStructure.get_random_pattern, h]

/-- Helper: an empty pattern list makes the syllable builder panic (the
source `expect`). -/
theorem generate_syllable_empty_patterns (p : LanguageProfile) (s : RngStream)
    (h : p.syllableStructure.patterns = []) : generate_syllable p s = (none, s) := by
  rw [generate_syllable, get_random_pattern_empty _ _ h]

/-- Profile whose only pattern is "V" but whose nucleus list is empty,
used as the C2 counterexample. -/
def exProfileNoNucleus : LanguageProfile :=
  ⟨"nonuc", ⟨[], []⟩, ⟨[⟨"V", 1⟩], [], [], []⟩, ⟨1, 1, [], [], []⟩, ⟨[], []⟩⟩

/-- C2 counterexample: with an empty nucleus list and a chosen template
containing a vowel slot, generate completes and returns output (the empty
string) instead of failing. -/
theorem generate_empty_nuclei_counterexample :
    exProfileNoNucleus.syllableStructure.nuclei = [] ∧
    (∀ pat ∈ exProfileNoNucleus.syllableStructure.patterns, 'V' ∈ pat.pattern.toList) ∧
    generate exProfileNoNucleus [0, 0] [] = some "" := by
  with_unfolding_all decide

/-- C2 amended: with an empty nucleus cluster list the vowel slot is
silently skipped — every successfully built syllable has an empty nucleus
and generation completes — while an empty syllable-template list does make
generate fail (the source panics, embedded as `none`). -/
theorem generate_failure_modes (p : LanguageProfile) (s ts : RngStream) :
    (p.syllableStructure.nuclei = [] →
      ∀ syl, (generate_syllable p s).1 = some syl → syl.nucleus = []) ∧
    (p.syllableStructure.patterns = [] →
      1 ≤ p.wordComposition.minSyllables →
      p.wordComposition.minSyllables ≤ p.wordComposition.maxSyllables →
      generate p s ts = none) := by
  constructor
  · intro h syl hsyl
    rw [generate_syllable] at hsyl
    cases hpat : p.syllableStructure.get_random_pattern s with
    | mk o s' =>
      cases o with
      | none =>
        rw [hpat] at hsyl
        exact Option.noConfusion hsyl
      | some pat =>
        rw [hpat] at hsyl
        simp only [Option.some.injEq] at hsyl
        rw [← hsyl]
        exact syllableFold_nucleus_of_no_nuclei p h pat.pattern.toList
          ⟨[], [], [], false⟩ s' rfl
  · intro hpat h1 h2
    have hge : 1 ≤ (genRangeNat p.wordComposition.minSyllables
        p.wordComposition.maxSyllables s).1 :=
      le_trans h1 (genRangeNat_fst_ge _ _ s h2)
    obtain ⟨k, hk⟩ : ∃ k, (genRangeNat p.wordComposition.minSyllables
        p.wordComposition.maxSyllables s).1 = k + 1 :=
      ⟨(genRangeNat p.wordComposition.minSyllables p.wordComposition.maxSyllables s).1 - 1,
        by omega⟩
    simp only [generate]
    rw [if_neg (not_lt.mpr h2), hk, genSyllables,
      generate_syllable_empty_patterns p _ hpat]

/-- Profile with no syllable patterns at all, used by the C2 witness. -/
def exProfileNoPatterns : LanguageProfile :=
  ⟨"nopat", ⟨[], []⟩, ⟨[], [], [], []⟩, ⟨1, 1, [], [], []⟩, ⟨[], []⟩⟩

/-- C2 amended witness: an empty pattern list makes generate fail, and the
syllable built under an empty nucleus list has an empty nucleus. -/
theorem generate_failure_modes_witness :
    generate exProfileNoPatterns [0] [] = none ∧
    Syllable.nucleus ⟨[], [], [], false⟩ = [] :=
  ⟨(generate_failure_modes exProfileNoPatterns [0] []).2 rfl (by decide) (by decide),
   (generate_failure_modes exProfileNoNucleus [0, 0] []).1 rfl ⟨[], [], [], false⟩
     (by with_unfolding_all decide)⟩

/-- Helper: a rule that is neither of the three probabilistic rules leaves
the syllables independent of the thread-RNG stream. -/
theorem applyRule_fst_ts (p : LanguageProfile) (rule : HarmonyRule)
    (h1 : rule.name ≠ "vowel_reduction")
    (h2 : rule.name ≠ "consonant_cluster_simplification")
    (h3 : rule.name ≠ "stress_dependent_vowel_quality")
    (syls : List Syllable) (ts₁ ts₂ : RngStream) :
    (applyRule p rule (syls, ts₁)).1 = (applyRule p rule (syls, ts₂)).1 := by
  simp only [applyRule]
  by_cases hv : rule.name = "vowel_harmony"
  · simp [hv]
  · simp [hv, h1, h2, h3]

/-- Helper: a pipeline without probabilistic rules produces syllables that
do not depend on the thread-RNG stream. -/
theorem apply_harmony_rules_fst_ts (p : LanguageProfile) : ∀ (rules : List HarmonyRule),
    (∀ r ∈ rules, r.name ≠ "vowel_reduction" ∧
      r.name ≠ "consonant_cluster_simplification" ∧
      r.name ≠ "stress_dependent_vowel_quality") →
    ∀ (syls : List Syllable) (ts₁ ts₂ : RngStream),
      (apply_harmony_rules p rules (syls, ts₁)).1 =
        (apply_harmony_rules p rules (syls, ts₂)).1 := by
  intro rules
  induction rules with
  | nil => intro _ syls ts₁ ts₂; rfl
  | cons rule rest ih =>
    intro h syls ts₁ ts₂
    obtain ⟨h1, h2, h3⟩ := h rule (List.mem_cons_self _ _)
    rw [apply_harmony_rules, apply_harmony_rules]
    have hfst := applyRule_fst_ts p rule h1 h2 h3 syls ts₁ ts₂
    rcases ha₁ : applyRule p rule (syls, ts₁) with ⟨syls₁, ts₁'⟩
    rcases ha₂ : applyRule p rule (syls, ts₂) with ⟨syls₂, ts₂'⟩
    rw [ha₁, ha₂] at hfst
    simp only at hfst
    subst hfst
    exact ih (fun r hr => h r (List.mem_cons_of_mem _ hr)) syls₁ ts₁' ts₂'

/-- Profile with a strength-1/2 vowel_reduction rule, used as the C1
counterexample: its pipeline draws from the ambient thread RNG. -/
def exProfileThread : LanguageProfile :=
  ⟨"thread",
   ⟨[⟨"[p]", PhonemeType.Consonant, "p", mkRat 8 10⟩,
     ⟨"[a]", PhonemeType.Vowel, "a", mkRat 9 10⟩,
     ⟨"[ə]", PhonemeType.Vowel, "e", mkRat 1 2⟩], []⟩,
   ⟨[⟨"CV", 1⟩], [⟨["[p]"], 1⟩], [⟨["[a]"], 1⟩], []⟩,
   ⟨2, 2, [], [], []⟩,
   ⟨[⟨"vowel_reduction", "unstressed_syllable", some "prefer_schwa", none, mkRat 1 2⟩], []⟩⟩

/-- C1 counterexample: with the supplied RNG stream held fixed, two
different ambient thread-RNG streams give two different output strings, so
generate is not a function of the profile and supplied RNG alone. -/
theorem generate_thread_rng_counterexample :
    generate exProfileThread [0, 0, 0, 0, 0, 0, 0] [0] = some "pape" ∧
    generate exProfileThread [0, 0, 0, 0, 0, 0, 0] [mkRat 9 10] = some "papa" ∧
    generate exProfileThread [0, 0, 0, 0, 0, 0, 0] [0] ≠
      generate exProfileThread [0, 0, 0, 0, 0, 0, 0] [mkRat 9 10] := by
  with_unfolding_all decide

/-- C1 amended: generate is a deterministic function of the profile, the
supplied RNG stream, AND the ambient thread-RNG stream; whenever the
profile's rule list contains none of the three thread-RNG-consuming rules
(vowel_reduction, consonant_cluster_simplification,
stress_dependent_vowel_quality), the output depends only on the profile
and the supplied RNG stream. -/
theorem generate_deterministic_without_probabilistic_rules (p : LanguageProfile)
    (s ts₁ ts₂ : RngStream)
    (h : ∀ r ∈ p.styleRules.harmonyRules, r.name ≠ "vowel_reduction" ∧
      r.name ≠ "consonant_cluster_simplification" ∧
      r.name ≠ "stress_dependent_vowel_quality") :
    generate p s ts₁ = generate p s ts₂ := by
  simp only [generate]
  by_cases hlt : p.wordComposition.maxSyllables < p.wordComposition.minSyllables
  · rw [if_pos hlt, if_pos hlt]
  · rw [if_neg hlt, if_neg hlt]
    cases hgen : genSyllables p
        (genRangeNat p.wordComposition.minSyllables p.wordComposition.maxSyllables s).1
        (genRangeNat p.wordComposition.minSyllables p.wordComposition.maxSyllables s).2 with
    | mk o s2 =>
      cases o with
      | none => rfl
      | some syls =>
        have := apply_harmony_rules_fst_ts p p.styleRules.harmonyRules h
          (assign_stress_patterns syls) ts₁ ts₂
        simp [this]

/-- Profile whose only rule is the deterministic vowel_harmony, used by
the C1 witness. -/
def exProfileVHGen : LanguageProfile :=
  ⟨"vh",
   ⟨[⟨"[p]", PhonemeType.Consonant, "p", 1⟩, ⟨"[a]", PhonemeType.Vowel, "a", 1⟩], []⟩,
   ⟨[⟨"CV", 1⟩], [⟨["[p]"], 1⟩], [⟨["[a]"], 1⟩], []⟩,
   ⟨2, 2, [], [], []⟩,
   ⟨[⟨"vowel_harmony", "always", none, none, 1⟩], []⟩⟩

/-- C1 amended witness: with only the vowel_harmony rule, two different
thread-RNG streams give the same output. -/
theorem generate_deterministic_witness :
    generate exProfileVHGen [0, 0, 0, 0, 0, 0, 0] [0] =
      generate exProfileVHGen [0, 0, 0, 0, 0, 0, 0] [mkRat 1 2] :=
  generate_deterministic_without_probabilistic_rules exProfileVHGen
    [0, 0, 0, 0, 0, 0, 0] [0] [mkRat 1 2] (by decide)
